import Mathlib

/-!
Verification development for the AI-companion frontend scripts.

Each namespace below is a shallow embedding of one JavaScript source file
(or one self-contained edition inside a file) of the repository:

* `MicJs`      — the microphone-capture WebSocket client of `script.js`
                 (`processor.onaudioprocess`, PCM conversion, RMS gating).
* `TtsJs`      — the sequential audio-chunk playback queue of `tts.js`
                 (identical code is duplicated in `script_sse.js`).
* `SttJs`      — the silence-timer debounce of `stt.js` / `script_sse.js`
                 (`handleSpeech`, `startSilenceTimer`, `sendMessage`).
* `SttVariant` / `SseVariant` — the pure speech-accumulation logic of
                 `handleSpeech` as written in `stt.js` and in `script_sse.js`,
                 transcribed separately to compare the duplicated variants.
* `SseJs`      — `handleSSEMessage` dispatch of `script_sse.js`.
* `SeqJs`      — `playTTSChunksSequentially` of the WebSocket edition in
                 `script_sse.js`.
* `Part001`    — the Vosk streaming client (unnamed source `part_001`).
* `Part002`    — the Web Speech `recognition.onresult` handler
                 (unnamed source `part_002`).
* `WsJs`       — `sendToAI` conversation-history bookkeeping of the
                 WebSocket/sidebar edition in `script.js`.

Numbers that JavaScript holds as IEEE doubles are modelled as exact
rationals; 16-bit signed integer storage is modelled with an explicit
wrap-around `% 2 ^ 16`.
-/

/-- JavaScript `String.prototype.replace` with a plain-string pattern
replaces only the first occurrence of the pattern. -/
def jsReplaceFirst (s pat rep : String) : String :=
  match s.splitOn pat with
  | [] => s
  | x :: rest => if rest = [] then x else x ++ rep ++ String.intercalate pat rest

/-- The shape of one Web Speech API recognition alternative
(`event.results[i][0].transcript`, `.confidence`, `event.results[i].isFinal`). -/
structure RecResult where
  transcript : String
  confidence : ℚ
  isFinal : Bool
deriving DecidableEq

namespace MicJs

/-- `script.js` line 6: `RMS_THRESHOLD: 0` ("Temporarily disable to debug"). -/
def RMS_THRESHOLD : ℚ := 0

/-- `WebSocket.OPEN` readyState constant. -/
def wsOPEN : Nat := 1

/-- The running sum `sum += inputBuffer[i] * inputBuffer[i]` over one frame. -/
def sumSq (frame : List ℚ) : ℚ := (frame.map (fun x => x * x)).sum

/-- JavaScript `ToInt16`-style truncation toward zero of a (finite) number. -/
def jsTrunc (q : ℚ) : ℤ := if 0 ≤ q then Int.floor q else -Int.floor (-q)

/-- Storage of an integer into an `Int16Array` slot: wrap modulo `2 ^ 16`
into the signed range. -/
def int16Store (n : ℤ) : ℤ := (n + 32768) % 65536 - 32768

/-- `script.js` line 77 (same line in `part_001`):
`Math.max(-32768, Math.min(32767, inputBuffer[i] * 32768))`. -/
def jsClampPcm (x : ℚ) : ℚ := max (-32768) (min 32767 (x * 32768))

/-- One converted sample as it ends up in the `Int16Array` sent over the
WebSocket: the clamped value, truncated to an integer and stored in a
16-bit slot. -/
def pcmOf (x : ℚ) : ℤ := int16Store (jsTrunc (jsClampPcm x))

/-- `processor.onaudioprocess` of `script.js` (lines 63-82): if the socket is
OPEN, compute the RMS of the frame and send the PCM conversion only when the
RMS exceeds `RMS_THRESHOLD`; otherwise nothing is sent.  The code compares
`Math.sqrt(sum / length) > CONFIG.RMS_THRESHOLD`; since the configured
threshold is the nonnegative constant `0`, this holds exactly when
`sum / length > RMS_THRESHOLD ^ 2`, which is the executable test used here
(the equivalence with the square-root form is proved in
`audio_frame_send_gating`). -/
def onaudioprocess (wsReadyState : Option Nat) (frame : List ℚ) : Option (List ℤ) :=
  if wsReadyState = some wsOPEN then
    if RMS_THRESHOLD ^ 2 < sumSq frame / (frame.length : ℚ) then
      some (frame.map pcmOf)
    else none
  else none

lemma jsClampPcm_le (x : ℚ) : jsClampPcm x ≤ 32767 := by
  unfold jsClampPcm
  exact max_le (by norm_num) (min_le_left _ _)

lemma le_jsClampPcm (x : ℚ) : -32768 ≤ jsClampPcm x := le_max_left _ _

lemma jsTrunc_mem (q : ℚ) (h1 : -32768 ≤ q) (h2 : q ≤ 32767) :
    -32768 ≤ jsTrunc q ∧ jsTrunc q ≤ 32767 := by
  unfold jsTrunc
  split
  · constructor
    · exact Int.le_floor.mpr (by exact_mod_cast h1)
    · have hfl : (Int.floor q : ℚ) ≤ q := Int.floor_le q
      have : (Int.floor q : ℚ) ≤ 32767 := le_trans hfl h2
      exact_mod_cast this
  · rename_i hneg
    push_neg at hneg
    constructor
    · have hfl : (Int.floor (-q) : ℚ) ≤ -q := Int.floor_le (-q)
      have hle : (Int.floor (-q) : ℚ) ≤ 32768 := le_trans hfl (by linarith)
      have : Int.floor (-q) ≤ 32768 := by exact_mod_cast hle
      omega
    · have h0 : (0 : ℤ) ≤ Int.floor (-q) :=
        Int.le_floor.mpr (by push_cast; linarith)
      omega

lemma int16Store_eq_self (n : ℤ) (h1 : -32768 ≤ n) (h2 : n ≤ 32767) :
    int16Store n = n := by
  unfold int16Store
  omega

end MicJs

/-- C8: PCM conversion never overflows the 16-bit range: for every rational
input sample `x` (including values outside `[-1, 1]`), the stored sample is
exactly the truncation of `max (-32768) (min 32767 (x * 32768))` — the modular
16-bit store never wraps — and hence every value sent over the WebSocket lies
in `[-32768, 32767]`. -/
theorem pcm_conversion_clamped : ∀ x : ℚ,
    MicJs.pcmOf x = MicJs.jsTrunc (MicJs.jsClampPcm x) ∧
    -32768 ≤ MicJs.pcmOf x ∧ MicJs.pcmOf x ≤ 32767 := by
  intro x
  obtain ⟨hl, hu⟩ :=
    MicJs.jsTrunc_mem (MicJs.jsClampPcm x) (MicJs.le_jsClampPcm x) (MicJs.jsClampPcm_le x)
  have heq : MicJs.pcmOf x = MicJs.jsTrunc (MicJs.jsClampPcm x) :=
    MicJs.int16Store_eq_self _ hl hu
  exact ⟨heq, by rw [heq]; exact hl, by rw [heq]; exact hu⟩

/-- C6: a PCM buffer is produced by `processor.onaudioprocess` exactly when
the WebSocket is OPEN and the frame RMS — the square root of the mean of the
squared samples, as the code computes it — strictly exceeds
`CONFIG.RMS_THRESHOLD`; whenever a buffer is sent it is the clamped 16-bit
conversion of the frame, and nothing is sent on a non-open socket or for a
frame at or below the threshold. -/
theorem audio_frame_send_gating : ∀ (wsReadyState : Option Nat) (frame : List ℚ),
    ((MicJs.onaudioprocess wsReadyState frame).isSome ↔
      (wsReadyState = some MicJs.wsOPEN ∧
        ((MicJs.RMS_THRESHOLD : ℝ) <
          Real.sqrt (((MicJs.sumSq frame : ℚ) : ℝ) / (frame.length : ℝ))))) ∧
    (MicJs.onaudioprocess wsReadyState frame = none ∨
      MicJs.onaudioprocess wsReadyState frame = some (frame.map MicJs.pcmOf)) := by
  intro ws frame
  have hcast : ((MicJs.sumSq frame / (frame.length : ℚ) : ℚ) : ℝ)
      = ((MicJs.sumSq frame : ℚ) : ℝ) / (frame.length : ℝ) := by
    push_cast
    ring
  have hbridge :
      (MicJs.RMS_THRESHOLD ^ 2 < MicJs.sumSq frame / (frame.length : ℚ)) ↔
      ((MicJs.RMS_THRESHOLD : ℝ) <
        Real.sqrt (((MicJs.sumSq frame : ℚ) : ℝ) / (frame.length : ℝ))) := by
    rw [← hcast]
    have h0 : MicJs.RMS_THRESHOLD = (0 : ℚ) := rfl
    rw [h0]
    rw [show (((0 : ℚ)) : ℝ) = (0 : ℝ) from by norm_num]
    rw [Real.sqrt_pos]
    constructor
    · intro h
      have hq0 : (0 : ℚ) < MicJs.sumSq frame / (frame.length : ℚ) := by simpa using h
      exact_mod_cast hq0
    · intro h
      have hq0 : (0 : ℚ) < MicJs.sumSq frame / (frame.length : ℚ) := by exact_mod_cast h
      simpa using hq0
  by_cases hws : ws = some MicJs.wsOPEN
  · by_cases hth : MicJs.RMS_THRESHOLD ^ 2 < MicJs.sumSq frame / (frame.length : ℚ)
    · have hsome : MicJs.onaudioprocess ws frame = some (frame.map MicJs.pcmOf) := by
        simp [MicJs.onaudioprocess, hws, hth]
      refine ⟨?_, Or.inr hsome⟩
      rw [hsome]
      simp only [Option.isSome_some, true_iff]
      exact ⟨hws, hbridge.mp hth⟩
    · have hnone : MicJs.onaudioprocess ws frame = none := by
        simp [MicJs.onaudioprocess, hws, hth]
      refine ⟨?_, Or.inl hnone⟩
      rw [hnone]
      simp only [Option.isSome_none, Bool.false_eq_true, false_iff]
      rintro ⟨-, hs⟩
      exact hth (hbridge.mpr hs)
  · have hnone : MicJs.onaudioprocess ws frame = none := by
      simp [MicJs.onaudioprocess, hws]
    refine ⟨?_, Or.inl hnone⟩
    rw [hnone]
    simp only [Option.isSome_none, Bool.false_eq_true, false_iff]
    rintro ⟨hw, -⟩
    exact hws hw

namespace SseJs

/-- `script_sse.js` line 6: `SILENCE_TIMEOUT_MS: 2000`. -/
def SILENCE_TIMEOUT_MS : Nat := 2000

end SseJs

namespace WsJs

/-- WebSocket/sidebar edition of `script.js` (and its copy inside
`script_sse.js`): `SILENCE_TIMEOUT_MS: 3000`. -/
def SILENCE_TIMEOUT_MS : Nat := 3000

end WsJs

namespace Part001

/-- `part_001` line 6: `RMS_THRESHOLD: 0.02`. -/
def RMS_THRESHOLD : ℚ := 2 / 100

/-- `part_001` line 9: `SILENCE_THRESHOLD: 0.01`. -/
def SILENCE_THRESHOLD : ℚ := 1 / 100

/-- `part_001` line 10: `SILENCE_TIMEOUT_MS: 3000`. -/
def SILENCE_TIMEOUT_MS : Nat := 3000

end Part001

/-- C3: the frontend script variants configure the silence-detection and
speech-capture loop with inconsistent parameters: the RMS/silence thresholds
are exactly 0 (`script.js`), 0.02 and 0.01 (`part_001`), and every configured
silence timeout lies in the range 2000-5000 ms (2000 in `script_sse.js`,
3000 in the WebSocket edition of `script.js` and in `part_001`). -/
theorem config_parameter_drift :
    (MicJs.RMS_THRESHOLD = 0 ∧
      Part001.RMS_THRESHOLD = 2 / 100 ∧
      Part001.SILENCE_THRESHOLD = 1 / 100) ∧
    (2000 ≤ SseJs.SILENCE_TIMEOUT_MS ∧ SseJs.SILENCE_TIMEOUT_MS ≤ 5000) ∧
    (2000 ≤ WsJs.SILENCE_TIMEOUT_MS ∧ WsJs.SILENCE_TIMEOUT_MS ≤ 5000) ∧
    (2000 ≤ Part001.SILENCE_TIMEOUT_MS ∧ Part001.SILENCE_TIMEOUT_MS ≤ 5000) := by
  refine ⟨⟨rfl, rfl, rfl⟩, ⟨?_, ?_⟩, ⟨?_, ?_⟩, ⟨?_, ?_⟩⟩ <;> decide

namespace TtsJs

/-- Frontend playback state of `tts.js` (lines 4-5 and the module globals it
uses): the pending queue `frontendAudioQueue`, the `isPlayingAudio` flag, the
`Audio` element currently playing (at most one exists, `playing`), plus two
ghost fields: the chunks whose playback has completed (`played`, in completion
order) and the `ttsEnabled` toggle read by `playAudioChunk`.  Chunks are
identified by natural numbers. -/
structure St where
  queue : List Nat
  isPlayingAudio : Bool
  playing : Option Nat
  played : List Nat
  ttsEnabled : Bool
deriving DecidableEq

/-- `playNextAudioChunk` (`tts.js` lines 23-80): with an empty queue it
clears `isPlayingAudio` and finishes; otherwise it shifts the head of the
queue and starts playing it.  (The speech-recognition restart and status
updates it also performs are outside the scope of the playback claims.) -/
def playNextAudioChunk (s : St) : St :=
  match s.queue with
  | [] => { s with isPlayingAudio := false, playing := none }
  | c :: rest => { s with isPlayingAudio := true, playing := some c, queue := rest }

/-- `playAudioChunk` (`tts.js` lines 8-20): returns immediately when TTS is
disabled, otherwise pushes the chunk onto `frontendAudioQueue` and starts
playback if it is not already running. -/
def playAudioChunk (c : Nat) (s : St) : St :=
  if s.ttsEnabled then
    let s1 : St := { s with queue := s.queue ++ [c] }
    if s1.isPlayingAudio then s1 else playNextAudioChunk s1
  else s

/-- Completion of the chunk currently playing.  In `tts.js` each started
chunk produces exactly one completion callback — `audio.onended` on success,
or `audio.onerror` / the surrounding `catch` on failure (`failed` records
which) — and every one of those paths calls `playNextAudioChunk`. -/
def finishChunk (s : St) (_failed : Bool) : St :=
  match s.playing with
  | none => s
  | some c => playNextAudioChunk { s with played := s.played ++ [c], playing := none }

/-- External events driving the playback module: an SSE/HTTP handler calling
`playAudioChunk c`, or the current chunk finishing (successfully or not). -/
inductive Ev where
  | push (c : Nat)
  | finish (failed : Bool)
deriving DecidableEq

def step (s : St) (e : Ev) : St :=
  match e with
  | .push c => playAudioChunk c s
  | .finish failed => finishChunk s failed

def runTts (s : St) (evs : List Ev) : St := evs.foldl step s

/-- Page-load state: empty queue, nothing playing, TTS enabled. -/
def init : St := ⟨[], false, none, [], true⟩

/-- The chunks passed to `playAudioChunk`, in arrival order. -/
def pushedOf (evs : List Ev) : List Nat :=
  evs.filterMap fun e => match e with | .push c => some c | .finish _ => none

/-- Invariant of the playback module: `isPlayingAudio` mirrors whether a
chunk is in flight, the queue can only be nonempty while something plays,
and TTS stays enabled (no toggle event is modelled). -/
def Inv (s : St) : Prop :=
  s.isPlayingAudio = s.playing.isSome ∧
  (s.playing = none → s.queue = []) ∧
  s.ttsEnabled = true

lemma inv_init : Inv init := by
  refine ⟨rfl, fun _ => rfl, rfl⟩

lemma step_inv (s : St) (e : Ev) (h : Inv s) :
    Inv (step s e) ∧
    (step s e).played ++ (step s e).playing.toList ++ (step s e).queue
      = s.played ++ s.playing.toList ++ s.queue ++ pushedOf [e] := by
  obtain ⟨h1, h2, h3⟩ := h
  cases e with
  | push c =>
    cases hp : s.playing with
    | none =>
      have hq : s.queue = [] := h2 hp
      have hb : s.isPlayingAudio = false := by rw [h1, hp]; rfl
      constructor
      · refine ⟨?_, ?_, ?_⟩ <;>
          simp [step, playAudioChunk, playNextAudioChunk, h3, hb, hq]
      · simp [step, playAudioChunk, playNextAudioChunk, h3, hb, hq, hp, pushedOf]
    | some c0 =>
      have hb : s.isPlayingAudio = true := by rw [h1, hp]; rfl
      constructor
      · refine ⟨?_, ?_, ?_⟩ <;>
          simp [step, playAudioChunk, h3, hb, hp]
      · simp [step, playAudioChunk, h3, hb, hp, pushedOf]
  | finish failed =>
    cases hp : s.playing with
    | none =>
      constructor
      · exact ⟨by simp [step, finishChunk, hp, h1], by simp [step, finishChunk, hp, h2],
          by simp [step, finishChunk, hp, h3]⟩
      · simp [step, finishChunk, hp, pushedOf]
    | some c0 =>
      cases hq : s.queue with
      | nil =>
        constructor
        · refine ⟨?_, ?_, ?_⟩ <;> simp [step, finishChunk, playNextAudioChunk, hp, hq, h3]
        · simp [step, finishChunk, playNextAudioChunk, hp, hq, pushedOf]
      | cons c1 rest =>
        constructor
        · refine ⟨?_, ?_, ?_⟩ <;> simp [step, finishChunk, playNextAudioChunk, hp, hq, h3]
        · simp [step, finishChunk, playNextAudioChunk, hp, hq, pushedOf]

lemma runTts_inv : ∀ (evs : List Ev) (s : St), Inv s →
    Inv (runTts s evs) ∧
    (runTts s evs).played ++ (runTts s evs).playing.toList ++ (runTts s evs).queue
      = s.played ++ s.playing.toList ++ s.queue ++ pushedOf evs := by
  intro evs
  induction evs with
  | nil => intro s h; simpa [runTts, pushedOf] using h
  | cons e rest ih =>
    intro s h
    obtain ⟨hstep, hcontent⟩ := step_inv s e h
    obtain ⟨hinv, hrest⟩ := ih (step s e) hstep
    refine ⟨by simpa [runTts] using hinv, ?_⟩
    have hrun : runTts s (e :: rest) = runTts (step s e) rest := by
      simp [runTts]
    rw [hrun, hrest, hcontent]
    cases e <;> simp [pushedOf, List.append_assoc]

lemma finish_played (s : St) (c : Nat) (b : Bool) (hp : s.playing = some c) :
    (step s (Ev.finish b)).played = s.played ++ [c] := by
  cases hq : s.queue <;> simp [step, finishChunk, playNextAudioChunk, hp, hq]

lemma drainTts : ∀ (bs : List Bool) (s : St), Inv s →
    bs.length = s.playing.toList.length + s.queue.length →
    (runTts s (bs.map Ev.finish)).queue = [] ∧
    (runTts s (bs.map Ev.finish)).playing = none ∧
    (runTts s (bs.map Ev.finish)).isPlayingAudio = false ∧
    (runTts s (bs.map Ev.finish)).played = s.played ++ s.playing.toList ++ s.queue := by
  intro bs
  induction bs with
  | nil =>
    intro s h hlen
    obtain ⟨h1, h2, _⟩ := h
    have hp : s.playing = none := by
      cases hp : s.playing with
      | none => rfl
      | some c =>
        rw [hp] at hlen
        simp at hlen
        exact absurd hlen (by omega)
    have hq : s.queue = [] := h2 hp
    refine ⟨by simpa [runTts] using hq, by simpa [runTts] using hp, ?_, ?_⟩
    · simp [runTts, h1, hp]
    · simp [runTts, hp, hq]
  | cons b bs ih =>
    intro s h hlen
    cases hp : s.playing with
    | none =>
      obtain ⟨h1, h2, _⟩ := h
      rw [hp, h2 hp] at hlen
      simp at hlen
    | some c =>
      obtain ⟨hstep, hcontent⟩ := step_inv s (Ev.finish b) h
      have hpl : (step s (Ev.finish b)).played = s.played ++ [c] := finish_played s c b hp
      have hlen2 : bs.length =
          (step s (Ev.finish b)).playing.toList.length + (step s (Ev.finish b)).queue.length := by
        have := congrArg List.length hcontent
        simp only [List.length_append, hpl, pushedOf, List.filterMap] at this ⊢
        rw [hp] at hlen this
        simp at hlen this
        omega
      obtain ⟨hq, hpn, hb, hplayed⟩ := ih (step s (Ev.finish b)) hstep hlen2
      have hrun : runTts s ((b :: bs).map Ev.finish)
          = runTts (step s (Ev.finish b)) (bs.map Ev.finish) := by
        simp [runTts]
      refine ⟨by rwa [hrun], by rwa [hrun], by rwa [hrun], ?_⟩
      rw [hrun, hplayed, hcontent]
      simp [pushedOf, hp]

lemma pushedOf_pushes (cs : List Nat) : pushedOf (cs.map Ev.push) = cs := by
  induction cs with
  | nil => rfl
  | cons c rest ih => simpa [pushedOf] using ih

end TtsJs

/-- C1: audio-chunk playback is sequential and queued.  For every sequence of
`playAudioChunk` calls interleaved with chunk completions, starting from the
page-load state with TTS enabled: `isPlayingAudio` is true exactly while some
chunk is in flight, at most one chunk is in flight at a time, and the chunks
already completed, the chunk in flight, and the pending queue — in that
order — are exactly the pushed chunks in FIFO arrival order (a chunk starts
only after every earlier chunk has ended or errored). -/
theorem tts_playback_queue_sequential : ∀ evs : List TtsJs.Ev,
    (TtsJs.runTts TtsJs.init evs).isPlayingAudio
        = (TtsJs.runTts TtsJs.init evs).playing.isSome ∧
    (TtsJs.runTts TtsJs.init evs).playing.toList.length ≤ 1 ∧
    (TtsJs.runTts TtsJs.init evs).played ++ (TtsJs.runTts TtsJs.init evs).playing.toList
        ++ (TtsJs.runTts TtsJs.init evs).queue = TtsJs.pushedOf evs := by
  intro evs
  obtain ⟨⟨h1, _, _⟩, hcontent⟩ := TtsJs.runTts_inv evs TtsJs.init TtsJs.inv_init
  refine ⟨h1, ?_, ?_⟩
  · cases hp : (TtsJs.runTts TtsJs.init evs).playing <;> simp [hp]
  · simpa [TtsJs.init] using hcontent

namespace SeqJs

/-- Local state of `playTTSChunksSequentially` (`script_sse.js` lines
1199-1278): the `currentChunkIndex` cursor, the chunks attempted so far
(ghost), and the `isAISpeaking` flag. -/
structure St where
  currentChunkIndex : Nat
  attempts : List Nat
  isAISpeaking : Bool
deriving DecidableEq

/-- The inner `playNextChunk`: past the end of the array it clears
`isAISpeaking` and stops; otherwise it attempts the chunk at
`currentChunkIndex` (decode, create `Audio`, call `play()`). -/
def playNextChunk (audioChunks : List Nat) (s : St) : St :=
  if h : s.currentChunkIndex < audioChunks.length then
    { s with attempts := s.attempts ++ [audioChunks.get ⟨s.currentChunkIndex, h⟩] }
  else { s with isAISpeaking := false }

/-- One completion of the attempted chunk.  Every completion path of the
code — `ended`, the `error` listener, a rejected `play()` promise, or the
`catch` around decoding — increments `currentChunkIndex` and re-enters
`playNextChunk` (`failed` records which path was taken). -/
def chunkDone (audioChunks : List Nat) (s : St) (_failed : Bool) : St :=
  playNextChunk audioChunks { s with currentChunkIndex := s.currentChunkIndex + 1 }

/-- Entry point: an empty chunk array returns immediately; otherwise
`isAISpeaking` is set and the first chunk is attempted. -/
def playTTSChunksSequentially (audioChunks : List Nat) : St :=
  if audioChunks.isEmpty then ⟨0, [], false⟩
  else playNextChunk audioChunks ⟨0, [], true⟩

lemma seq_go (audioChunks : List Nat) : ∀ (bs : List Bool) (k : Nat),
    k < audioChunks.length →
    k + bs.length = audioChunks.length →
    bs.foldl (chunkDone audioChunks) ⟨k, audioChunks.take (k + 1), true⟩
      = ⟨audioChunks.length, audioChunks, false⟩ := by
  intro bs
  induction bs with
  | nil =>
    intro k hk hlen
    exfalso
    simp at hlen
    omega
  | cons b bs ih =>
    intro k hk hlen
    have hfold : (b :: bs).foldl (chunkDone audioChunks) ⟨k, audioChunks.take (k + 1), true⟩
        = bs.foldl (chunkDone audioChunks)
            (chunkDone audioChunks ⟨k, audioChunks.take (k + 1), true⟩ b) := by
      simp [List.foldl_cons]
    rw [hfold]
    by_cases hk1 : k + 1 < audioChunks.length
    · have hstep : chunkDone audioChunks ⟨k, audioChunks.take (k + 1), true⟩ b
          = ⟨k + 1, audioChunks.take (k + 1) ++ [audioChunks.get ⟨k + 1, hk1⟩], true⟩ := by
        show playNextChunk audioChunks ⟨k + 1, audioChunks.take (k + 1), true⟩ = _
        unfold playNextChunk
        rw [dif_pos hk1]
      have htake : audioChunks.take (k + 2)
          = audioChunks.take (k + 1) ++ [audioChunks.get ⟨k + 1, hk1⟩] := by
        conv_lhs => rw [List.take_succ]
        rw [List.getElem?_eq_getElem hk1]
        simp [List.get_eq_getElem]
      rw [hstep, ← htake]
      have hlen2 : (k + 1) + bs.length = audioChunks.length := by
        simp at hlen
        omega
      exact ih (k + 1) hk1 hlen2
    · have hke : k + 1 = audioChunks.length := by omega
      have hbs : bs = [] := by
        have : bs.length = 0 := by
          simp at hlen
          omega
        exact List.eq_nil_of_length_eq_zero this
      have hstep : chunkDone audioChunks ⟨k, audioChunks.take (k + 1), true⟩ b
          = ⟨k + 1, audioChunks.take (k + 1), false⟩ := by
        show playNextChunk audioChunks ⟨k + 1, audioChunks.take (k + 1), true⟩ = _
        unfold playNextChunk
        rw [dif_neg hk1]
      rw [hbs, hstep]
      simp only [List.foldl_nil]
      rw [hke, List.take_length]

end SeqJs

/-- C4: playback error handling never stalls the queue.  First conjunct
(`tts.js` queue): after any sequence of `playAudioChunk` pushes, delivering
one completion per outstanding chunk — regardless of which completions are
failures — empties `frontendAudioQueue`, clears `isPlayingAudio`, and the
chunks attempted are exactly the pushed chunks, each exactly once, in order.
Second conjunct (`playTTSChunksSequentially` of `script_sse.js`): for every
finite chunk array, after one completion per chunk — failed or not — every
chunk has been attempted exactly once, in order, and playback has finished. -/
theorem playback_error_never_stalls :
    (∀ (cs : List Nat) (bs : List Bool),
      bs.length = (TtsJs.runTts TtsJs.init (cs.map TtsJs.Ev.push)).playing.toList.length
        + (TtsJs.runTts TtsJs.init (cs.map TtsJs.Ev.push)).queue.length →
      (TtsJs.runTts (TtsJs.runTts TtsJs.init (cs.map TtsJs.Ev.push))
          (bs.map TtsJs.Ev.finish)).queue = [] ∧
      (TtsJs.runTts (TtsJs.runTts TtsJs.init (cs.map TtsJs.Ev.push))
          (bs.map TtsJs.Ev.finish)).playing = none ∧
      (TtsJs.runTts (TtsJs.runTts TtsJs.init (cs.map TtsJs.Ev.push))
          (bs.map TtsJs.Ev.finish)).isPlayingAudio = false ∧
      (TtsJs.runTts (TtsJs.runTts TtsJs.init (cs.map TtsJs.Ev.push))
          (bs.map TtsJs.Ev.finish)).played = cs) ∧
    (∀ (audioChunks : List Nat) (bs : List Bool),
      bs.length = audioChunks.length →
      (bs.foldl (SeqJs.chunkDone audioChunks)
          (SeqJs.playTTSChunksSequentially audioChunks)).attempts = audioChunks ∧
      (bs.foldl (SeqJs.chunkDone audioChunks)
          (SeqJs.playTTSChunksSequentially audioChunks)).isAISpeaking = false) := by
  constructor
  · intro cs bs hlen
    obtain ⟨hinv, hcontent⟩ :=
      TtsJs.runTts_inv (cs.map TtsJs.Ev.push) TtsJs.init TtsJs.inv_init
    have hcs : (TtsJs.runTts TtsJs.init (cs.map TtsJs.Ev.push)).played
        ++ (TtsJs.runTts TtsJs.init (cs.map TtsJs.Ev.push)).playing.toList
        ++ (TtsJs.runTts TtsJs.init (cs.map TtsJs.Ev.push)).queue = cs := by
      rw [hcontent, TtsJs.pushedOf_pushes]
      simp [TtsJs.init]
    obtain ⟨hq, hp, hb, hplayed⟩ :=
      TtsJs.drainTts bs (TtsJs.runTts TtsJs.init (cs.map TtsJs.Ev.push)) hinv hlen
    refine ⟨hq, hp, hb, ?_⟩
    rw [hplayed, hcs]
  · intro audioChunks bs hlen
    cases audioChunks with
    | nil =>
      have hbs : bs = [] := List.eq_nil_of_length_eq_zero (by simpa using hlen)
      subst hbs
      constructor <;> rfl
    | cons c rest =>
      have hstart : SeqJs.playTTSChunksSequentially (c :: rest)
          = ⟨0, (c :: rest).take 1, true⟩ := by
        simp [SeqJs.playTTSChunksSequentially, SeqJs.playNextChunk]
      rw [hstart]
      have := SeqJs.seq_go (c :: rest) bs 0 (by simp) (by simpa using hlen)
      rw [this]
      exact ⟨rfl, rfl⟩

/-- Witness for `playback_error_never_stalls`: pushing chunks 7 and 8 leaves
two outstanding chunks; a failed and a successful completion drain the queue,
and a one-chunk array with a failed completion is fully attempted. -/
theorem playback_error_never_stalls_witness :
    (([true, false] : List Bool).length
        = (TtsJs.runTts TtsJs.init ([7, 8].map TtsJs.Ev.push)).playing.toList.length
          + (TtsJs.runTts TtsJs.init ([7, 8].map TtsJs.Ev.push)).queue.length ∧
      ((TtsJs.runTts (TtsJs.runTts TtsJs.init ([7, 8].map TtsJs.Ev.push))
            ([true, false].map TtsJs.Ev.finish)).queue = [] ∧
       (TtsJs.runTts (TtsJs.runTts TtsJs.init ([7, 8].map TtsJs.Ev.push))
            ([true, false].map TtsJs.Ev.finish)).playing = none ∧
       (TtsJs.runTts (TtsJs.runTts TtsJs.init ([7, 8].map TtsJs.Ev.push))
            ([true, false].map TtsJs.Ev.finish)).isPlayingAudio = false ∧
       (TtsJs.runTts (TtsJs.runTts TtsJs.init ([7, 8].map TtsJs.Ev.push))
            ([true, false].map TtsJs.Ev.finish)).played = [7, 8])) ∧
    (([false] : List Bool).length = ([5] : List Nat).length ∧
      ((([false] : List Bool).foldl (SeqJs.chunkDone [5])
          (SeqJs.playTTSChunksSequentially [5])).attempts = [5] ∧
       (([false] : List Bool).foldl (SeqJs.chunkDone [5])
          (SeqJs.playTTSChunksSequentially [5])).isAISpeaking = false)) :=
  ⟨⟨by decide, playback_error_never_stalls.1 [7, 8] [true, false] (by decide)⟩,
   ⟨rfl, playback_error_never_stalls.2 [5] [false] rfl⟩⟩

namespace SttJs

/-- One call of `handleSpeech(text, isFinal)` at real time `t` milliseconds. -/
structure Ev where
  t : Nat
  text : String
  isFinal : Bool
deriving DecidableEq

/-- Module state of `stt.js` (the same globals exist in `script_sse.js`):
the accumulated `currentText`, the pending silence timer represented by its
absolute fire deadline, and a ghost log of the `sendMessage` network calls
as (fire time, message sent) pairs. -/
structure St where
  currentText : String
  silenceTimer : Option Nat
  sends : List (Nat × String)
deriving DecidableEq

def init : St := ⟨"", none, []⟩

/-- `sendMessage` (`stt.js` lines 117-197, network effects abstracted to the
ghost `sends` log): returns immediately when the accumulated text is blank,
otherwise posts `currentText` and resets it for the next message. -/
def sendMessage (d : Nat) (s : St) : St :=
  if s.currentText.trim = "" then s
  else { s with sends := s.sends ++ [(d, s.currentText)], currentText := "" }

/-- The silence timer firing at its deadline `d`: the `setTimeout` callback
installed by `startSilenceTimer` runs `sendMessage`; the timer is consumed. -/
def fire (d : Nat) (s : St) : St := sendMessage d { s with silenceTimer := none }

/-- `handleSpeech` (`stt.js` lines 83-107, timer aspect): any call first
clears a pending silence timer; a final result appends the trimmed text to
`currentText` (single-space separated) and calls `startSilenceTimer`, which
arms the timer to fire `TO = CONFIG.SILENCE_TIMEOUT_MS` after the call;
an interim result only updates the display. -/
def handleSpeech (TO : Nat) (e : Ev) (s : St) : St :=
  let s1 : St := { s with silenceTimer := none }
  if e.isFinal then
    { s1 with
      currentText := s1.currentText ++ (if s1.currentText = "" then "" else " ") ++ e.text.trim,
      silenceTimer := some (e.t + TO) }
  else s1

/-- Single-threaded event-loop scheduling: before a speech event at time
`e.t` is handled, a pending timer whose deadline has been reached fires. -/
def step (TO : Nat) (s : St) (e : Ev) : St :=
  let s1 : St :=
    match s.silenceTimer with
    | some d => if d ≤ e.t then fire d s else s
    | none => s
  handleSpeech TO e s1

/-- After the last speech event, a still-pending timer eventually fires. -/
def finalize (s : St) : St :=
  match s.silenceTimer with
  | some d => fire d s
  | none => s

/-- Process a chronological trace of `handleSpeech` calls from page load. -/
def runStt (TO : Nat) (evs : List Ev) : St := finalize (evs.foldl (step TO) init)

/-- Pending-timer invariant relative to the processed events `done`: an armed
deadline was installed by the latest processed event, which was final. -/
def TimerOk (TO : Nat) (done : List Ev) (s : St) : Prop :=
  ∀ d, s.silenceTimer = some d →
    ∃ e, e ∈ done ∧ e.isFinal = true ∧ d = e.t + TO ∧ ∀ f, f ∈ done → f.t ≤ e.t

/-- Debounce property of the `sends` log relative to the full trace
`allEvs` and the processed part `done`: every send fired exactly
`TO` after a final speech event, with no other event inside the window. -/
def SendsOk (TO : Nat) (allEvs done : List Ev) (s : St) : Prop :=
  ∀ p, p ∈ s.sends →
    ∃ e, e ∈ done ∧ e.isFinal = true ∧ p.1 = e.t + TO ∧ p.2.trim ≠ "" ∧
      ∀ f, f ∈ allEvs → e.t < f.t → p.1 ≤ f.t

lemma handleSpeech_sends (TO : Nat) (e : Ev) (s : St) :
    (handleSpeech TO e s).sends = s.sends := by
  unfold handleSpeech
  split <;> rfl

lemma handleSpeech_timer (TO : Nat) (e : Ev) (s : St) (d : Nat)
    (h : (handleSpeech TO e s).silenceTimer = some d) :
    e.isFinal = true ∧ d = e.t + TO := by
  unfold handleSpeech at h
  by_cases hf : e.isFinal = true
  · rw [if_pos hf] at h
    simp at h
    exact ⟨hf, h.symm⟩
  · rw [if_neg hf] at h
    simp at h

lemma step_timerOk (TO : Nat) (done : List Ev) (s : St) (e : Ev)
    (hdone_lt : ∀ f, f ∈ done → f.t < e.t) :
    TimerOk TO (done ++ [e]) (step TO s e) := by
  intro d hd
  unfold step at hd
  obtain ⟨hf, hdeq⟩ := handleSpeech_timer TO e _ d hd
  refine ⟨e, by simp, hf, hdeq, ?_⟩
  intro f hfm
  rcases List.mem_append.mp hfm with hfd | hfe
  · exact le_of_lt (hdone_lt f hfd)
  · simp at hfe
    exact le_of_eq (by rw [hfe])

lemma step_sends (TO : Nat) (s : St) (e : Ev) :
    (step TO s e).sends = s.sends ∨
    (∃ d, s.silenceTimer = some d ∧ d ≤ e.t ∧ s.currentText.trim ≠ "" ∧
      (step TO s e).sends = s.sends ++ [(d, s.currentText)]) := by
  rcases hst : s.silenceTimer with _ | d
  · left
    have hstep : step TO s e = handleSpeech TO e s := by
      unfold step
      rw [hst]
    rw [hstep, handleSpeech_sends]
  · by_cases hle : d ≤ e.t
    · have hstep : step TO s e = handleSpeech TO e (fire d s) := by
        unfold step
        rw [hst]
        simp [hle]
      by_cases hemp : s.currentText.trim = ""
      · left
        rw [hstep, handleSpeech_sends]
        simp [fire, sendMessage, hemp]
      · right
        refine ⟨d, rfl, hle, hemp, ?_⟩
        rw [hstep, handleSpeech_sends]
        simp [fire, sendMessage, hemp]
    · left
      have hstep : step TO s e = handleSpeech TO e s := by
        unfold step
        rw [hst]
        simp [hle]
      rw [hstep, handleSpeech_sends]

lemma foldl_ok (TO : Nat) : ∀ (rest done : List Ev) (s : St),
    List.Pairwise (fun a b : Ev => a.t < b.t) (done ++ rest) →
    TimerOk TO done s →
    SendsOk TO (done ++ rest) done s →
    TimerOk TO (done ++ rest) (rest.foldl (step TO) s) ∧
    SendsOk TO (done ++ rest) (done ++ rest) (rest.foldl (step TO) s) := by
  intro rest
  induction rest with
  | nil =>
    intro done s hp ht hs
    constructor
    · simpa using ht
    · simpa using hs
  | cons e rs ih =>
    intro done s hp ht hs
    have hpair := List.pairwise_append.mp hp
    have hdone_lt : ∀ f, f ∈ done → f.t < e.t := fun f hf => hpair.2.2 f hf e (by simp)
    have hrs_lt : ∀ f, f ∈ rs → e.t < f.t :=
      fun f hf => (List.pairwise_cons.mp hpair.2.1).1 f hf
    have htimer : TimerOk TO (done ++ [e]) (step TO s e) := step_timerOk TO done s e hdone_lt
    have hsends : SendsOk TO (done ++ e :: rs) (done ++ [e]) (step TO s e) := by
      intro p hps
      rcases step_sends TO s e with hsame | ⟨d, hst, hle, hemp, hnew⟩
      · rw [hsame] at hps
        obtain ⟨e0, he0, hf0, hp1, hp2, hwin⟩ := hs p hps
        exact ⟨e0, List.mem_append_left _ he0, hf0, hp1, hp2, hwin⟩
      · rw [hnew] at hps
        rcases List.mem_append.mp hps with hold | hnewp
        · obtain ⟨e0, he0, hf0, hp1, hp2, hwin⟩ := hs p hold
          exact ⟨e0, List.mem_append_left _ he0, hf0, hp1, hp2, hwin⟩
        · simp at hnewp
          obtain ⟨e1, he1, hf1, hd1, hbound⟩ := ht d hst
          subst hnewp
          refine ⟨e1, List.mem_append_left _ he1, hf1, hd1, hemp, ?_⟩
          intro f hf hlt
          rcases List.mem_append.mp hf with hfd | hfe
          · exact absurd hlt (not_lt.mpr (hbound f hfd))
          · rcases List.mem_cons.mp hfe with hfeq | hfr
            · rw [hfeq]
              exact hle
            · have := hrs_lt f hfr
              have hdle : d ≤ e.t := hle
              show d ≤ f.t
              omega
    have hassoc : done ++ e :: rs = (done ++ [e]) ++ rs := by simp
    have hfold : (e :: rs).foldl (step TO) s = rs.foldl (step TO) (step TO s e) := by
      simp [List.foldl_cons]
    rw [hfold, hassoc]
    rw [hassoc] at hp hsends
    exact ih (done ++ [e]) (step TO s e) hp htimer hsends

lemma finalize_sendsOk (TO : Nat) (evs : List Ev) (s : St)
    (ht : TimerOk TO evs s) (hs : SendsOk TO evs evs s) :
    SendsOk TO evs evs (finalize s) := by
  intro p hps
  unfold finalize at hps
  rcases hst : s.silenceTimer with _ | d
  · rw [hst] at hps
    exact hs p hps
  · rw [hst] at hps
    by_cases hemp : s.currentText.trim = ""
    · have hf : (fire d s).sends = s.sends := by simp [fire, sendMessage, hemp]
      rw [hf] at hps
      exact hs p hps
    · have hf : (fire d s).sends = s.sends ++ [(d, s.currentText)] := by
        simp [fire, sendMessage, hemp]
      rw [hf] at hps
      rcases List.mem_append.mp hps with hold | hnew
      · exact hs p hold
      · simp at hnew
        obtain ⟨e1, he1, hf1, hd1, hbound⟩ := ht d hst
        subst hnew
        refine ⟨e1, he1, hf1, hd1, hemp, ?_⟩
        intro f hfm hlt
        exact absurd hlt (not_lt.mpr (hbound f hfm))

end SttJs

/-- C2: silence detection is a debounce.  First conjunct: `handleSpeech`
(final or interim) behaves identically whatever silence timer was pending —
the pending timer is cancelled before anything else.  Second conjunct: on any
chronological trace of `handleSpeech` calls, every `sendMessage` that posts
to the backend fires exactly `SILENCE_TIMEOUT_MS` (`TO`) after some final
speech event, with no `handleSpeech` call strictly inside that window — so
no send happens while speech events keep arriving within the timeout. -/
theorem silence_debounce_send (TO : Nat) (evs : List SttJs.Ev)
    (hchrono : List.Pairwise (fun a b : SttJs.Ev => a.t < b.t) evs) :
    (∀ (e : SttJs.Ev) (s : SttJs.St),
        SttJs.handleSpeech TO e s
          = SttJs.handleSpeech TO e { s with silenceTimer := none }) ∧
    ∀ p, p ∈ (SttJs.runStt TO evs).sends →
      ∃ e, e ∈ evs ∧ e.isFinal = true ∧ p.1 = e.t + TO ∧ p.2.trim ≠ "" ∧
        ∀ f, f ∈ evs → e.t < f.t → p.1 ≤ f.t := by
  constructor
  · intro e s
    cases s
    rfl
  · have ht0 : SttJs.TimerOk TO [] SttJs.init := by
      intro d hd
      simp [SttJs.init] at hd
    have hs0 : SttJs.SendsOk TO ([] ++ evs) [] SttJs.init := by
      intro p hp
      simp [SttJs.init] at hp
    obtain ⟨ht, hs⟩ := SttJs.foldl_ok TO evs [] SttJs.init (by simpa using hchrono) ht0 hs0
    simp only [List.nil_append] at ht hs
    exact SttJs.finalize_sendsOk TO evs _ ht hs

/-- Witness for `silence_debounce_send`: a single final utterance at time 0
with timeout 2000 (the `script_sse.js` value) is chronological, and the
theorem instantiates to it. -/
theorem silence_debounce_send_witness :
    List.Pairwise (fun a b : SttJs.Ev => a.t < b.t) [⟨0, "hello", true⟩] ∧
    ((∀ (e : SttJs.Ev) (s : SttJs.St),
        SttJs.handleSpeech SseJs.SILENCE_TIMEOUT_MS e s
          = SttJs.handleSpeech SseJs.SILENCE_TIMEOUT_MS e { s with silenceTimer := none }) ∧
     ∀ p, p ∈ (SttJs.runStt SseJs.SILENCE_TIMEOUT_MS
          [(⟨0, "hello", true⟩ : SttJs.Ev)]).sends →
       ∃ e, e ∈ [(⟨0, "hello", true⟩ : SttJs.Ev)] ∧ e.isFinal = true ∧
         p.1 = e.t + SseJs.SILENCE_TIMEOUT_MS ∧ p.2.trim ≠ "" ∧
         ∀ f, f ∈ [(⟨0, "hello", true⟩ : SttJs.Ev)] → e.t < f.t → p.1 ≤ f.t) :=
  ⟨List.pairwise_singleton _ _,
   silence_debounce_send SseJs.SILENCE_TIMEOUT_MS [⟨0, "hello", true⟩]
     (List.pairwise_singleton _ _)⟩

namespace SttVariant

/-- `handleSpeech` of `stt.js` (lines 83-107), text/display aspect: a final
result appends `text.trim()` to `currentText` with a single-space separator
(JavaScript truthiness: the separator is empty only when `currentText` is the
empty string) and displays `currentText`; an interim result leaves
`currentText` untouched and displays it followed by a space and the interim
text with a leading `[PARTIAL] ` marker removed, trimmed.  Returns the new
`currentText` and the bubble text passed to `updateBubble`. -/
def handleSpeech (currentText text : String) (isFinal : Bool) : String × String :=
  if isFinal then
    let c := currentText ++ (if currentText = "" then "" else " ") ++ text.trim
    (c, c)
  else
    (currentText, currentText ++ " " ++ (jsReplaceFirst text "[PARTIAL] " "").trim)

/-- Folding a whole sequence of `(text, isFinal)` recognition events through
`handleSpeech`, collecting every displayed bubble text. -/
def runSpeech (currentText : String) (evs : List (String × Bool)) : String × List String :=
  evs.foldl
    (fun acc ev =>
      let r := handleSpeech acc.1 ev.1 ev.2
      (r.1, acc.2 ++ [r.2]))
    (currentText, [])

/-- `recognition.onresult` transcript accumulation of `stt.js` (lines 29-48):
alternatives below `CONFIG.STT_CONFIDENCE_THRESHOLD` (a config value defined
outside this file, passed here as `thr`) are skipped; the rest concatenate
into the final or the interim transcript. -/
def onresultTranscripts (thr : ℚ) (results : List RecResult) : String × String :=
  results.foldl
    (fun acc r =>
      if r.confidence < thr then acc
      else if r.isFinal then (acc.1 ++ r.transcript, acc.2)
      else (acc.1, acc.2 ++ r.transcript))
    ("", "")

end SttVariant

namespace SseVariant

/-- `handleSpeech` of `script_sse.js` (lines 113-137), transcribed from that
file: textually the same logic as the `stt.js` copy. -/
def handleSpeech (currentText text : String) (isFinal : Bool) : String × String :=
  if isFinal then
    let c := currentText ++ (if currentText = "" then "" else " ") ++ text.trim
    (c, c)
  else
    (currentText, currentText ++ " " ++ (jsReplaceFirst text "[PARTIAL] " "").trim)

/-- Folding a recognition-event sequence through the `script_sse.js` copy. -/
def runSpeech (currentText : String) (evs : List (String × Bool)) : String × List String :=
  evs.foldl
    (fun acc ev =>
      let r := handleSpeech acc.1 ev.1 ev.2
      (r.1, acc.2 ++ [r.2]))
    (currentText, [])

end SseVariant

/-- C5: the duplicated script variants reimplement the same
speech-accumulation loop: for every starting `currentText` and every sequence
of `(text, isFinal)` events, `handleSpeech` of `stt.js` and `handleSpeech` of
`script_sse.js` produce identical resulting `currentText` values and an
identical sequence of displayed bubble texts. -/
theorem handleSpeech_variants_equivalent :
    ∀ (currentText : String) (evs : List (String × Bool)),
      SttVariant.runSpeech currentText evs = SseVariant.runSpeech currentText evs := by
  intro currentText evs
  rfl

namespace Part002

/-- `recognition.onresult` of `part_002` (lines 22-59): alternatives with
`confidence < 0.7` are skipped (`continue`); the remaining transcripts
concatenate into `finalTranscript` or `interimTranscript`, which are the
strings later handed to `handleSpeech`. -/
def onresultTranscripts (results : List RecResult) : String × String :=
  results.foldl
    (fun acc r =>
      if r.confidence < 7 / 10 then acc
      else if r.isFinal then (acc.1 ++ r.transcript, acc.2)
      else (acc.1, acc.2 ++ r.transcript))
    ("", "")

end Part002

lemma foldl_filter_of_skip {α β : Type} (f : β → α → β) (p : α → Bool)
    (hf : ∀ acc r, p r = false → f acc r = acc) :
    ∀ (l : List α) (acc : β), l.foldl f acc = (l.filter p).foldl f acc := by
  intro l
  induction l with
  | nil => intro acc; rfl
  | cons r rest ih =>
    intro acc
    cases hp : p r with
    | true => simp [List.filter_cons, hp, ih]
    | false => simp [List.filter_cons, hp, hf acc r hp, ih]

/-- C9: low-confidence recognition results are silently discarded: dropping
every alternative whose confidence is strictly below the threshold — 0.7 in
`part_002`, `CONFIG.STT_CONFIDENCE_THRESHOLD` (any value `thr`) in the
`stt.js` variant — from the result list leaves both the final and the interim
transcript unchanged, so such speech never reaches `handleSpeech` or the
displayed message. -/
theorem low_confidence_filtered :
    (∀ results : List RecResult,
      Part002.onresultTranscripts results
        = Part002.onresultTranscripts
            (results.filter (fun r => decide (7 / 10 ≤ r.confidence)))) ∧
    (∀ (thr : ℚ) (results : List RecResult),
      SttVariant.onresultTranscripts thr results
        = SttVariant.onresultTranscripts thr
            (results.filter (fun r => decide (thr ≤ r.confidence)))) := by
  constructor
  · intro results
    exact foldl_filter_of_skip _ _
      (by
        intro acc r hp
        simp at hp
        simp [not_le.mpr hp])
      results ("", "")
  · intro thr results
    exact foldl_filter_of_skip _ _
      (by
        intro acc r hp
        simp at hp
        simp [not_le.mpr hp])
      results ("", "")

namespace SseJs

/-- One chat bubble in the messages DOM: its text content, the sender class,
and whether it still carries the `recording` class. -/
structure Msg where
  text : String
  sender : String
  recording : Bool
deriving DecidableEq

/-- State touched by `handleSSEMessage` (`script_sse.js` lines 171-220): the
message list in the DOM, the `aiMessageBubble` reference (an index into it),
`aiCurrentText`, a ghost log of `playAudioChunk` invocations, and the
`ttsEnabled` flag. -/
structure St where
  dom : List Msg
  aiMessageBubble : Option Nat
  aiCurrentText : String
  audioCalls : List Nat
  ttsEnabled : Bool
deriving DecidableEq

/-- `addMessage(text, sender, isRecording)` (`script_sse.js` lines 434-459):
appends a bubble and returns it (here: its index). -/
def addMessage (s : St) (text sender : String) (isRecording : Bool) : St × Nat :=
  ({ s with dom := s.dom ++ [⟨text, sender, isRecording⟩] }, s.dom.length)

/-- The textContent assignment on the message-text child of the bubble:
replace the text of the bubble at index `i`. -/
def setMsgText : List Msg → Nat → String → List Msg
  | [], _, _ => []
  | m :: rest, 0, c => { m with text := c } :: rest
  | m :: rest, i + 1, c => m :: setMsgText rest i c

/-- The classList removal of the recording class in the `complete` case. -/
def clearRecording : List Msg → Nat → List Msg
  | [], _ => []
  | m :: rest, 0 => { m with recording := false } :: rest
  | m :: rest, i + 1 => m :: clearRecording rest i

/-- The parsed `data` of one SSE message: its `type` tag with the field each
case reads; `other` stands for any unrecognized `type` string. -/
inductive SSEData where
  | connected (session_id : String)
  | text (content : String)
  | audio (chunk : Nat)
  | complete
  | error (message : String)
  | other (ty : String)
deriving DecidableEq

/-- `handleSSEMessage` (`script_sse.js` lines 175-220): dispatch on
`data.type`.  `connected` resets the AI bubble state; `text` creates the AI
bubble if absent and sets its text to `data.content`; `audio` calls
`playAudioChunk(data.chunk)` only when `ttsEnabled`; `complete` drops the
`recording` class; `error` adds an assistant bubble reading
`Error: <message>`; an unrecognized type falls through the `switch`. -/
def handleSSEMessage (data : SSEData) (s : St) : St :=
  match data with
  | .connected _ => { s with aiMessageBubble := none, aiCurrentText := "" }
  | .text c =>
      match s.aiMessageBubble with
      | none =>
          let r := addMessage s "" "assistant" false
          { r.1 with
            aiMessageBubble := some r.2,
            aiCurrentText := c,
            dom := setMsgText r.1.dom r.2 c }
      | some i => { s with aiCurrentText := c, dom := setMsgText s.dom i c }
  | .audio k => if s.ttsEnabled then { s with audioCalls := s.audioCalls ++ [k] } else s
  | .complete =>
      match s.aiMessageBubble with
      | some i => { s with dom := clearRecording s.dom i }
      | none => s
  | .error m => (addMessage s ("Error: " ++ m) "assistant" false).1
  | .other _ => s

lemma setMsgText_get : ∀ (l : List Msg) (i : Nat) (c : String), i < l.length →
    ((setMsgText l i c).get? i).map Msg.text = some c := by
  intro l
  induction l with
  | nil =>
    intro i c h
    simp at h
  | cons m rest ih =>
    intro i c h
    cases i with
    | zero => rfl
    | succ j =>
      have : j < rest.length := by simpa using h
      simpa [setMsgText] using ih j c this

lemma setMsgText_length : ∀ (l : List Msg) (i : Nat) (c : String),
    (setMsgText l i c).length = l.length := by
  intro l
  induction l with
  | nil => intro i c; rfl
  | cons m rest ih =>
    intro i c
    cases i with
    | zero => rfl
    | succ j => simpa [setMsgText] using ih j c

end SseJs

/-- C7: streamed-back text and audio are dispatched by message type in
`handleSSEMessage`: a `text` event sets the AI bubble text to exactly
`data.content`, creating the bubble when absent; an `audio` event invokes
`playAudioChunk(data.chunk)` if and only if `ttsEnabled`; an `error` event
adds an assistant message whose text starts with `Error: `; and an
unrecognized event type modifies no state at all. -/
theorem sse_dispatch_by_type (s : SseJs.St)
    (hvalid : ∀ i, s.aiMessageBubble = some i → i < s.dom.length) :
    (∀ c, ∃ i, (SseJs.handleSSEMessage (.text c) s).aiMessageBubble = some i ∧
       (((SseJs.handleSSEMessage (.text c) s).dom.get? i).map SseJs.Msg.text = some c) ∧
       (SseJs.handleSSEMessage (.text c) s).aiCurrentText = c ∧
       (s.aiMessageBubble = none →
         (SseJs.handleSSEMessage (.text c) s).dom.length = s.dom.length + 1)) ∧
    (∀ k, (SseJs.handleSSEMessage (.audio k) s).audioCalls
        = s.audioCalls ++ (if s.ttsEnabled then [k] else [])) ∧
    (∀ m, ∃ msg, (SseJs.handleSSEMessage (.error m) s).dom = s.dom ++ [msg] ∧
       msg.text = "Error: " ++ m ∧ msg.sender = "assistant") ∧
    (∀ ty, SseJs.handleSSEMessage (.other ty) s = s) := by
  refine ⟨?_, ?_, ?_, ?_⟩
  · intro c
    cases hb : s.aiMessageBubble with
    | none =>
      refine ⟨s.dom.length, ?_, ?_, ?_, ?_⟩
      · simp [SseJs.handleSSEMessage, hb, SseJs.addMessage]
      · have hlen : s.dom.length < (s.dom ++ [(⟨"", "assistant", false⟩ : SseJs.Msg)]).length := by
          simp
        have := SseJs.setMsgText_get (s.dom ++ [⟨"", "assistant", false⟩]) s.dom.length c hlen
        simpa [SseJs.handleSSEMessage, hb, SseJs.addMessage] using this
      · simp [SseJs.handleSSEMessage, hb, SseJs.addMessage]
      · intro _
        have := SseJs.setMsgText_length (s.dom ++ [(⟨"", "assistant", false⟩ : SseJs.Msg)])
          s.dom.length c
        simp [SseJs.handleSSEMessage, hb, SseJs.addMessage, this]
    | some i =>
      refine ⟨i, ?_, ?_, ?_, ?_⟩
      · simp [SseJs.handleSSEMessage, hb]
      · have := SseJs.setMsgText_get s.dom i c (hvalid i hb)
        simpa [SseJs.handleSSEMessage, hb] using this
      · simp [SseJs.handleSSEMessage, hb]
      · intro hnone
        exact absurd hnone (by simp)
  · intro k
    by_cases ht : s.ttsEnabled <;> simp [SseJs.handleSSEMessage, ht]
  · intro m
    exact ⟨⟨"Error: " ++ m, "assistant", false⟩,
      by simp [SseJs.handleSSEMessage, SseJs.addMessage], rfl, rfl⟩
  · intro ty
    rfl

/-- Witness for `sse_dispatch_by_type`: the initial page state (no bubble,
empty DOM, TTS enabled) satisfies the bubble-validity hypothesis. -/
theorem sse_dispatch_by_type_witness :
    (∀ i, (⟨[], none, "", [], true⟩ : SseJs.St).aiMessageBubble = some i
        → i < (⟨[], none, "", [], true⟩ : SseJs.St).dom.length) ∧
    ((∀ c, ∃ i,
       (SseJs.handleSSEMessage (.text c) ⟨[], none, "", [], true⟩).aiMessageBubble = some i ∧
       (((SseJs.handleSSEMessage (.text c) ⟨[], none, "", [], true⟩).dom.get? i).map
           SseJs.Msg.text = some c) ∧
       (SseJs.handleSSEMessage (.text c) ⟨[], none, "", [], true⟩).aiCurrentText = c ∧
       ((⟨[], none, "", [], true⟩ : SseJs.St).aiMessageBubble = none →
         (SseJs.handleSSEMessage (.text c) ⟨[], none, "", [], true⟩).dom.length
           = (⟨[], none, "", [], true⟩ : SseJs.St).dom.length + 1)) ∧
     (∀ k, (SseJs.handleSSEMessage (.audio k) ⟨[], none, "", [], true⟩).audioCalls
         = (⟨[], none, "", [], true⟩ : SseJs.St).audioCalls
           ++ (if (⟨[], none, "", [], true⟩ : SseJs.St).ttsEnabled then [k] else [])) ∧
     (∀ m, ∃ msg,
       (SseJs.handleSSEMessage (.error m) ⟨[], none, "", [], true⟩).dom
           = (⟨[], none, "", [], true⟩ : SseJs.St).dom ++ [msg] ∧
       msg.text = "Error: " ++ m ∧ msg.sender = "assistant") ∧
     (∀ ty, SseJs.handleSSEMessage (.other ty) ⟨[], none, "", [], true⟩
         = ⟨[], none, "", [], true⟩)) :=
  ⟨fun i h => by simp at h,
   sse_dispatch_by_type ⟨[], none, "", [], true⟩ (fun i h => by simp at h)⟩

namespace WsJs

/-- One entry of `conversationHistory`: `{role, content}`. -/
structure ChatMsg where
  role : String
  content : String
deriving DecidableEq

/-- JavaScript `Array.prototype.slice(-n)`: the last `n` elements (the whole
array when it is shorter than `n`). -/
def jsSliceLast (n : Nat) (l : List ChatMsg) : List ChatMsg := l.drop (l.length - n)

/-- History bookkeeping of `sendToAI` (`script.js` lines 585-598) on a
successful round-trip: push the user message and the assistant response, then
`if (conversationHistory.length > 20) conversationHistory =
conversationHistory.slice(-20)`. -/
def sendToAI_history (history : List ChatMsg) (userText response : String) : List ChatMsg :=
  let h2 := (history ++ [⟨"user", userText⟩]) ++ [⟨"assistant", response⟩]
  if 20 < h2.length then jsSliceLast 20 h2 else h2

/-- A whole conversation: successive successful round-trips folded over
`sendToAI_history`, starting from the empty history of page load (or of
`clearConversation`). -/
def runConversation (pairs : List (String × String)) : List ChatMsg :=
  pairs.foldl (fun h p => sendToAI_history h p.1 p.2) []

lemma sendToAI_history_length_le (history : List ChatMsg) (u r : String) :
    (sendToAI_history history u r).length ≤ 20 ∨
      (sendToAI_history history u r).length = history.length + 2 := by
  unfold sendToAI_history jsSliceLast
  by_cases hcap : 20 <
      ((history ++ [(⟨"user", u⟩ : ChatMsg)]) ++ [(⟨"assistant", r⟩ : ChatMsg)]).length
  · left
    rw [if_pos hcap]
    simp only [List.length_drop]
    simp at hcap ⊢
    omega
  · right
    rw [if_neg hcap]
    simp

end WsJs

/-- C10: conversation history is bounded.  First conjunct: starting from the
empty history, after every sequence of successful `sendToAI` round-trips
`conversationHistory` holds at most 20 entries.  Second conjunct: whenever
the cap fires (the pushed history exceeds 20), the retained list has exactly
20 entries and is a suffix of the pushed history — the oldest entries are
dropped and the order of the rest is preserved. -/
theorem conversation_history_bounded :
    (∀ pairs : List (String × String), (WsJs.runConversation pairs).length ≤ 20) ∧
    (∀ (history : List WsJs.ChatMsg) (u r : String),
      20 < history.length + 2 →
      (WsJs.sendToAI_history history u r).length = 20 ∧
      ((history ++ [(⟨"user", u⟩ : WsJs.ChatMsg)]) ++ [(⟨"assistant", r⟩ : WsJs.ChatMsg)])
        = ((history ++ [(⟨"user", u⟩ : WsJs.ChatMsg)])
              ++ [(⟨"assistant", r⟩ : WsJs.ChatMsg)]).take (history.length + 2 - 20)
          ++ WsJs.sendToAI_history history u r) := by
  constructor
  · intro pairs
    have hstep : ∀ (h : List WsJs.ChatMsg) (p : String × String),
        h.length ≤ 20 → (WsJs.sendToAI_history h p.1 p.2).length ≤ 20 := by
      intro h p hle
      rcases WsJs.sendToAI_history_length_le h p.1 p.2 with hc | he
      · exact hc
      · rw [he]
        unfold WsJs.sendToAI_history at he
        by_cases hcap : 20 <
            ((h ++ [(⟨"user", p.1⟩ : WsJs.ChatMsg)]) ++ [(⟨"assistant", p.2⟩ : WsJs.ChatMsg)]).length
        · rw [if_pos hcap] at he
          unfold WsJs.jsSliceLast at he
          simp only [List.length_drop, List.length_append, List.length_cons,
            List.length_nil] at he hcap
          omega
        · simp only [List.length_append, List.length_cons, List.length_nil] at hcap
          omega
    have hrun : ∀ (ps : List (String × String)) (h : List WsJs.ChatMsg), h.length ≤ 20 →
        (ps.foldl (fun acc p => WsJs.sendToAI_history acc p.1 p.2) h).length ≤ 20 := by
      intro ps
      induction ps with
      | nil => intro h hle; simpa using hle
      | cons p rest ih =>
        intro h hle
        simpa using ih (WsJs.sendToAI_history h p.1 p.2) (hstep h p hle)
    simpa [WsJs.runConversation] using hrun pairs [] (by simp)
  · intro history u r hcap
    have hlen : ((history ++ [(⟨"user", u⟩ : WsJs.ChatMsg)])
        ++ [(⟨"assistant", r⟩ : WsJs.ChatMsg)]).length = history.length + 2 := by
      simp
    have hcap2 : 20 < ((history ++ [(⟨"user", u⟩ : WsJs.ChatMsg)])
        ++ [(⟨"assistant", r⟩ : WsJs.ChatMsg)]).length := by
      rw [hlen]; exact hcap
    have hdef : WsJs.sendToAI_history history u r
        = ((history ++ [(⟨"user", u⟩ : WsJs.ChatMsg)])
            ++ [(⟨"assistant", r⟩ : WsJs.ChatMsg)]).drop (history.length + 2 - 20) := by
      unfold WsJs.sendToAI_history WsJs.jsSliceLast
      rw [if_pos hcap2, hlen]
    constructor
    · rw [hdef]
      simp only [List.length_drop, hlen]
      omega
    · rw [hdef]
      exact (List.take_append_drop _ _).symm

/-- Witness for `conversation_history_bounded`: a history of 19 entries plus
the two pushed messages exceeds the cap, and the theorem instantiates to it. -/
theorem conversation_history_bounded_witness :
    20 < (List.replicate 19 (⟨"user", "x"⟩ : WsJs.ChatMsg)).length + 2 ∧
    ((WsJs.sendToAI_history (List.replicate 19 (⟨"user", "x"⟩ : WsJs.ChatMsg)) "u" "r").length
        = 20 ∧
      ((List.replicate 19 (⟨"user", "x"⟩ : WsJs.ChatMsg) ++ [(⟨"user", "u"⟩ : WsJs.ChatMsg)])
          ++ [(⟨"assistant", "r"⟩ : WsJs.ChatMsg)])
        = ((List.replicate 19 (⟨"user", "x"⟩ : WsJs.ChatMsg) ++ [(⟨"user", "u"⟩ : WsJs.ChatMsg)])
            ++ [(⟨"assistant", "r"⟩ : WsJs.ChatMsg)]).take
              ((List.replicate 19 (⟨"user", "x"⟩ : WsJs.ChatMsg)).length + 2 - 20)
          ++ WsJs.sendToAI_history (List.replicate 19 (⟨"user", "x"⟩ : WsJs.ChatMsg)) "u" "r") :=
  ⟨by simp,
   conversation_history_bounded.2 (List.replicate 19 ⟨"user", "x"⟩) "u" "r" (by simp)⟩
